import Mathlib

/-!
Verification of the formula parser/evaluator core of `loda-lang/formula-analyzer`.

The development shallowly embeds `src/formula/parser.py` (sanitizer, tokenizer,
recursive-descent parser, evaluator) and `src/formula/formula.py` (the parallel
evaluator implementation `eval_node`, `_binomial`, `_sumdigits`, `_to_int`,
`Formula.evaluate`).

Conventions of the embedding:
* Python ints are `ℤ` (arbitrary precision in Python), `fractions.Fraction`
  values are `ℚ`.
* Python functions that can `raise` are modelled as `Except Err _`; every
  `raise ValueError(...)` site gets an `Err` constructor naming the condition.
* Python `%` on integers is Euclidean remainder, which is Lean's `Int.emod`
  (the default `%` on `ℤ`), so `%` transcribes literally.
* `int(...)` applied to a `Fraction` or `float` truncates toward zero; this is
  `ratTrunc` below (`Int.div` of numerator by denominator truncates toward 0).
* Recursions that are loops or recursive descent in the source are given a
  structural fuel parameter so that every definition is executable by the
  kernel; top-level entry points pass fuel that provably suffices (the
  tokenizer consumes at least one character per emitted token, the parser
  consumes at least one token per nested descent).
-/

/-- The set of characters matched by Python's `\s` in a `str` regex and
stripped by `str.strip()`: the characters `c` with `c.isspace()` true
(U+0009–U+000D, U+001C–U+001F, space, U+0085, U+00A0, U+1680,
U+2000–U+200A, U+2028, U+2029, U+202F, U+205F, U+3000). Used by
`TOKEN_REGEX`'s leading `\s*`, the sanitizer whitelist and `str.strip()` in
`parser.py`. -/
def isPySpace (c : Char) : Bool :=
  let v := c.toNat
  (9 ≤ v && v ≤ 13) || v = 32 || (28 ≤ v && v ≤ 31) || v = 0x85 || v = 0xA0 ||
  v = 0x1680 || (0x2000 ≤ v && v ≤ 0x200A) || v = 0x2028 || v = 0x2029 ||
  v = 0x202F || v = 0x205F || v = 0x3000

/-- Token model: `parser.py` represents tokens as pairs `(kind, value)`; the
value is determined by the kind except for integer literals (the `int` of the
digit run) and function names (the lowercased identifier), so we carry exactly
those payloads. -/
inductive Token where
  | INT (v : ℕ)
  | VAR
  | FUNC (name : String)
  | ADD
  | SUB
  | MUL
  | DIV
  | POW
  | LP
  | RP
  | COMMA
  | EOF
deriving DecidableEq, Repr

/-- Failure conditions of the pipeline.  Every constructor corresponds to a
`raise ValueError(...)` site in the source, except `zeroDivisionError`
(Python `ZeroDivisionError` from `0 ** negative`), `approxPow` (a `**` whose
exponent is a non-integer `Fraction`: the source falls back to an approximate
`float` power, which this exact embedding does not represent; that branch is
unreachable from parser-produced ASTs, whose exponents are integer literals)
and `outOfFuel` (recursion guard of the embedding, never hit by the fuel the
entry points pass). -/
inductive Err where
  | invalidToken
  | unsupportedIdentifier (name : String)
  | unexpectedToken (expected : String)
  | trailingTokens
  | expectedPrimary
  | unsupportedFunction (name : String)
  | outOfFuel
  | arity (fn : String)
  | nonIntegerArgument
  | divisionByZero
  | invalidBase
  | unknownFunction (name : String)
  | invalidNode
  | negativeSqrt
  | zeroDivisionError
  | approxPow
deriving DecidableEq, Repr

/-- The function whitelist checked by the tokenizer (and re-checked,
redundantly, by `Parser.primary`). -/
def funcWhitelist : List String :=
  ["floor", "ceil", "binomial", "sqrtint", "gcd", "sumdigits"]

/-- `[a-zA-Z]` of the token regex (ASCII letters, as in Python's `[a-zA-Z]`). -/
def isAsciiLetter (c : Char) : Bool := c.isAlpha

/-- `int()` of a run of ASCII digits (most significant first). -/
def natOfDigits (cs : List Char) : ℕ :=
  cs.foldl (fun a c => 10 * a + (c.toNat - '0'.toNat)) 0

-- An `Except` result is compared for equality in concrete test theorems.
deriving instance DecidableEq for Except

/-- Classification of a matched identifier (the body of the `if m.group(1)`
branch of `_tokenize`): the lowercased name becomes VAR for "n", FUNC for a
whitelisted function name, and otherwise raises `Unsupported identifier`. -/
def tokOfName (name : String) : Except Err Token :=
  if name = "n" then .ok .VAR
  else if name ∈ funcWhitelist then .ok (.FUNC name)
  else .error (.unsupportedIdentifier name)

/-- One alternative match of `TOKEN_REGEX` at a non-whitespace character `d`
(with tail `ds`), in the regex's priority order: letter run, digit run,
`[nN]` (dead: any single letter is already a letter run), `[+\-]`, `*`, `/`,
`^`, `(`, `)`, `,`.  Returns the token and the remaining characters, or the
error the tokenizer raises there. -/
def tokStep (d : Char) (ds : List Char) : Except Err (Token × List Char) :=
  if isAsciiLetter d then
    -- group(1): identifier run, lowercased and classified by `tokOfName`.
    (tokOfName (String.mk ((d :: ds.takeWhile isAsciiLetter).map Char.toLower))).map
      (fun t => (t, ds.dropWhile isAsciiLetter))
  else if d.isDigit then
    -- group(2): integer literal.
    .ok (.INT (natOfDigits (d :: ds.takeWhile Char.isDigit)), ds.dropWhile Char.isDigit)
  -- group(3) `[nN]` can never fire: a single `n`/`N` is caught by group(1).
  else if d = '+' then .ok (.ADD, ds)
  else if d = '-' then .ok (.SUB, ds)
  else if d = '*' then .ok (.MUL, ds)
  else if d = '/' then .ok (.DIV, ds)
  else if d = '^' then .ok (.POW, ds)
  else if d = '(' then .ok (.LP, ds)
  else if d = ')' then .ok (.RP, ds)
  else if d = ',' then .ok (.COMMA, ds)
  else .error .invalidToken

/-- The `while pos < len(expr)` loop of `_tokenize`.  Each iteration matches
`TOKEN_REGEX` at the current position: skip `\s*`, then one alternative must
match (alternatives never match a whitespace character, so regex backtracking
over `\s*` cannot help; if only whitespace remains, or the first
non-whitespace character starts no alternative, the match fails and the
source raises `ValueError("Invalid token")`). -/
def tokA : ℕ → List Char → Except Err (List Token)
  | _, [] => .ok []
  | 0, _ :: _ => .error .outOfFuel
  | fuel + 1, c :: cs =>
    match (c :: cs).dropWhile isPySpace with
    | [] => .error .invalidToken
    | d :: ds =>
      match tokStep d ds with
      | .error e => .error e
      | .ok (tok, rem) =>
        match tokA fuel rem with
        | .error e => .error e
        | .ok toks => .ok (tok :: toks)

/-- `_tokenize`: run the scan loop, then append the terminal EOF token.
The fuel `length + 1` suffices: every iteration consumes at least one
character (`tokA_fuel_irrelevant` below). -/
def _tokenize (expr : String) : Except Err (List Token) :=
  match tokA (expr.toList.length + 1) expr.toList with
  | .error e => .error e
  | .ok toks => .ok (toks ++ [.EOF])

section TokenizerLemmas

theorem tokA_nil (f : ℕ) : tokA f [] = .ok [] := by cases f <;> rfl

theorem tokA_succ_cons (f : ℕ) (c : Char) (cs : List Char) :
    tokA (f + 1) (c :: cs) =
      match (c :: cs).dropWhile isPySpace with
      | [] => .error .invalidToken
      | d :: ds =>
        match tokStep d ds with
        | .error e => .error e
        | .ok (tok, rem) =>
          match tokA f rem with
          | .error e => .error e
          | .ok toks => .ok (tok :: toks) := rfl

theorem tokStep_consumes {d : Char} {ds : List Char} {tok : Token}
    {rem : List Char} (h : tokStep d ds = .ok (tok, rem)) :
    rem.length ≤ ds.length := by
  unfold tokStep at h
  split at h
  · -- identifier run: the remainder is `ds.dropWhile isAsciiLetter`
    cases htn : tokOfName (String.mk ((d :: ds.takeWhile isAsciiLetter).map Char.toLower)) with
    | error e => rw [htn] at h; exact absurd h (by simp [Except.map])
    | ok t =>
      rw [htn] at h
      simp only [Except.map, Except.ok.injEq, Prod.mk.injEq] at h
      rw [← h.2]
      exact (List.dropWhile_sublist _).length_le
  · split at h
    · -- digit run: the remainder is `ds.dropWhile Char.isDigit`
      simp only [Except.ok.injEq, Prod.mk.injEq] at h
      rw [← h.2]
      exact (List.dropWhile_sublist _).length_le
    · -- single-character tokens: the remainder is `ds` itself
      repeat' split at h
      all_goals simp only [Except.ok.injEq, Prod.mk.injEq, reduceCtorEq] at h
      all_goals rw [← h.2]

/-- The scan loop's result does not depend on the fuel, as long as the fuel
exceeds the number of remaining characters: each iteration consumes at least
one character. -/
theorem tokA_fuel_irrelevant :
    ∀ (f₁ : ℕ) (cs : List Char) (f₂ : ℕ), cs.length < f₁ → cs.length < f₂ →
      tokA f₁ cs = tokA f₂ cs := by
  intro f₁
  induction f₁ with
  | zero => intro cs f₂ h; omega
  | succ a ih =>
    intro cs f₂ h₁ h₂
    cases cs with
    | nil => rw [tokA_nil, tokA_nil]
    | cons c cs' =>
      cases f₂ with
      | zero => simp at h₂
      | succ b =>
        rw [tokA_succ_cons, tokA_succ_cons]
        cases hdw : (c :: cs').dropWhile isPySpace with
        | nil => rfl
        | cons d ds =>
          cases hts : tokStep d ds with
          | error e => simp [hts]
          | ok p =>
            obtain ⟨tok, rem⟩ := p
            have hds : ds.length < cs'.length + 1 := by
              have h3 := (List.dropWhile_sublist (l := c :: cs') isPySpace).length_le
              rw [hdw] at h3
              simp at h3
              omega
            have hrem : rem.length ≤ ds.length := tokStep_consumes hts
            have heq : tokA a rem = tokA b rem := by
              apply ih
              · simp at h₁; omega
              · simp at h₂; omega
            simp [hts, heq]

end TokenizerLemmas

/-- The AST node classes.  `parser.py` and `formula.py` each define an
identical set of five classes (`NumNode`, `VarNode`, `BinNode`, `UnaryNode`,
`FuncNode`) with exactly these fields; the embedding uses one shared
inductive for the common structure.  `op` and `name` are free strings in the
source (plain attributes), so they are free strings here; the evaluators'
defensive branches for unexpected strings are reachable exactly as in the
source. -/
inductive Node where
  | NumNode (value : ℤ)
  | VarNode
  | BinNode (op : String) (left right : Node)
  | UnaryNode (op : String) (operand : Node)
  | FuncNode (name : String) (args : List Node)

/-- Python `str.strip()` (default: strip whitespace on both ends). -/
def pyStrip (s : List Char) : List Char :=
  ((s.dropWhile isPySpace).reverse.dropWhile isPySpace).reverse

/-- Python `.rstrip(".;")`: remove trailing `.` and `;` characters. -/
def pyRstripDotSemi (s : List Char) : List Char :=
  (s.reverse.dropWhile (fun c => c = '.' || c = ';')).reverse

/-- The character class of the sanitizer's `fullmatch` whitelist
`[0-9nN\+\-\*/\^\(\),\sa-zA-Z]`. -/
def sanitizeOkChar (c : Char) : Bool :=
  c.isDigit || c = 'n' || c = 'N' || c = '+' || c = '-' || c = '*' || c = '/' ||
  c = '^' || c = '(' || c = ')' || c = ',' || isPySpace c || c.isAlpha

/-- `FormulaParser._sanitize_expression`: strip outer whitespace and trailing
`.`/`;`, reject an empty result or any character outside the whitelist. -/
def _sanitize_expression (expr : String) : Option String :=
  let candidate := pyRstripDotSemi (pyStrip expr.toList)
  if candidate.isEmpty then none
  else if candidate.all sanitizeOkChar then some (String.mk candidate) else none

mutual

/-- `Parser.expr`: `expr := term (("+"|"-") term)*`. -/
def pExpr : ℕ → List Token → Except Err (Node × List Token)
  | 0, _ => .error .outOfFuel
  | fuel + 1, ts => do
    let (node, ts₁) ← pTerm fuel ts
    pExprLoop fuel node ts₁

/-- The `while self.peek()[0] in ("ADD", "SUB")` loop of `Parser.expr`; the
token's stored character (`op[1]`) becomes the `BinNode` operator. -/
def pExprLoop : ℕ → Node → List Token → Except Err (Node × List Token)
  | 0, _, _ => .error .outOfFuel
  | fuel + 1, node, ts =>
    match ts with
    | .ADD :: rest => do
      let (rhs, ts₁) ← pTerm fuel rest
      pExprLoop fuel (.BinNode "+" node rhs) ts₁
    | .SUB :: rest => do
      let (rhs, ts₁) ← pTerm fuel rest
      pExprLoop fuel (.BinNode "-" node rhs) ts₁
    | _ => .ok (node, ts)

/-- `Parser.term`: `term := factor (('*'|'/') factor)*`. -/
def pTerm : ℕ → List Token → Except Err (Node × List Token)
  | 0, _ => .error .outOfFuel
  | fuel + 1, ts => do
    let (node, ts₁) ← pFactor fuel ts
    pTermLoop fuel node ts₁

/-- The `while self.peek()[0] in ("MUL", "DIV")` loop of `Parser.term`; the
source writes `BinNode("/" if op_kind == "DIV" else "*", node, rhs)`. -/
def pTermLoop : ℕ → Node → List Token → Except Err (Node × List Token)
  | 0, _, _ => .error .outOfFuel
  | fuel + 1, node, ts =>
    match ts with
    | .MUL :: rest => do
      let (rhs, ts₁) ← pFactor fuel rest
      pTermLoop fuel (.BinNode "*" node rhs) ts₁
    | .DIV :: rest => do
      let (rhs, ts₁) ← pFactor fuel rest
      pTermLoop fuel (.BinNode "/" node rhs) ts₁
    | _ => .ok (node, ts)

/-- `Parser.factor`: `factor := signed_power`. -/
def pFactor : ℕ → List Token → Except Err (Node × List Token)
  | 0, _ => .error .outOfFuel
  | fuel + 1, ts => pSignedPower fuel ts

/-- `Parser.signed_power`: `signed_power := ('+'|'-')? power`; a leading sign
token wraps the following `power` in a `UnaryNode` carrying the sign
character. -/
def pSignedPower : ℕ → List Token → Except Err (Node × List Token)
  | 0, _ => .error .outOfFuel
  | fuel + 1, ts =>
    match ts with
    | .ADD :: rest => do
      let (node, ts₁) ← pPower fuel rest
      .ok (.UnaryNode "+" node, ts₁)
    | .SUB :: rest => do
      let (node, ts₁) ← pPower fuel rest
      .ok (.UnaryNode "-" node, ts₁)
    | _ => pPower fuel ts

/-- `Parser.power`: `power := primary ('^' INT)?`; after `^` the parser
`eat`s an INT token and wraps its value directly in a `NumNode`. -/
def pPower : ℕ → List Token → Except Err (Node × List Token)
  | 0, _ => .error .outOfFuel
  | fuel + 1, ts => do
    let (node, ts₁) ← pPrimary fuel ts
    match ts₁ with
    | .POW :: rest =>
      match rest with
      | .INT v :: rest' => .ok (.BinNode "^" node (.NumNode v), rest')
      | _ => .error (.unexpectedToken "INT")
    | _ => .ok (node, ts₁)

/-- `Parser.primary`: `primary := INT | VAR | FUNC '(' expr (',' expr)* ')'
| '(' expr ')'`.  The whitelist re-check on FUNC is in the source (it can
never fail after the tokenizer, but is transcribed). -/
def pPrimary : ℕ → List Token → Except Err (Node × List Token)
  | 0, _ => .error .outOfFuel
  | fuel + 1, ts =>
    match ts with
    | .INT v :: rest => .ok (.NumNode v, rest)
    | .VAR :: rest => .ok (.VarNode, rest)
    | .FUNC name :: rest =>
      if name ∈ funcWhitelist then
        match rest with
        | .LP :: rest' => do
          let (a, ts₁) ← pExpr fuel rest'
          let (args, ts₂) ← pArgsLoop fuel [a] ts₁
          match ts₂ with
          | .RP :: r => .ok (.FuncNode name args, r)
          | _ => .error (.unexpectedToken "RP")
        | _ => .error (.unexpectedToken "LP")
      else .error (.unsupportedFunction name)
    | .LP :: rest => do
      let (node, ts₁) ← pExpr fuel rest
      match ts₁ with
      | .RP :: r => .ok (node, r)
      | _ => .error (.unexpectedToken "RP")
    | _ => .error .expectedPrimary

/-- The `while self.peek()[0] == "COMMA"` argument loop inside
`Parser.primary`'s FUNC branch; arguments accumulate in order. -/
def pArgsLoop : ℕ → List Node → List Token → Except Err (List Node × List Token)
  | 0, _, _ => .error .outOfFuel
  | fuel + 1, args, ts =>
    match ts with
    | .COMMA :: rest => do
      let (a, ts₁) ← pExpr fuel rest
      pArgsLoop fuel (args ++ [a]) ts₁
    | _ => .ok (args, ts)

end

/-- `Parser.parse`: parse a full `expr`, then require the next token to be
EOF (`Unexpected trailing tokens` otherwise).  The fuel `8 * (length + 1)`
suffices: along any root-to-leaf chain of parser calls, at most eight calls
happen between two token consumptions (see `pExpr_fuel_irrelevant`-style
reasoning in the claims below, which never needs more fuel than this). -/
def parserParse (tokens : List Token) : Except Err Node := do
  let (node, rest) ← pExpr (8 * (tokens.length + 1)) tokens
  match rest.head? with
  | some .EOF => .ok node
  | _ => .error .trailingTokens

/-- `_parse_expression`: tokenize, then parse. -/
def _parse_expression (expr : String) : Except Err Node := do
  let tokens ← _tokenize expr
  parserParse tokens

/-! ## Evaluation values

`_eval_node`/`eval_node` produce Python `int`s and `fractions.Fraction`s (for
an integer index `n` no `float` can arise: every leaf is an int, and every
operation on ints/Fractions below stays exact).  The distinction between an
`int` and a `Fraction` whose denominator is 1 is observable (`Fraction` results
survive `+ - *`), so values carry the tag. -/
inductive Value where
  | int (z : ℤ)
  | frac (q : ℚ)
deriving DecidableEq, Repr

/-- The numeric value of a `Value` (Python `==`, `float()` etc. compare by
this). -/
def toRat : Value → ℚ
  | .int z => (z : ℚ)
  | .frac q => q

/-- Python `int(...)` on an exact rational: truncation toward zero
(`Fraction.__trunc__`; also `int()` of the non-negative-power floats analysed
at `powWithIntExp`).  `Int.tdiv` rounds toward zero and `q.den > 0`. -/
def ratTrunc (q : ℚ) : ℤ := Int.tdiv q.num (q.den : ℤ)

/-- Python `-` on an evaluation value. -/
def vneg : Value → Value
  | .int z => .int (-z)
  | .frac q => .frac (-q)

/-- Python `+`: `int + int` is an `int`; a `Fraction` operand makes the result
a `Fraction` (even when its denominator is 1). -/
def vadd : Value → Value → Value
  | .int a, .int b => .int (a + b)
  | x, y => .frac (toRat x + toRat y)

/-- Python binary `-` (same promotion rule as `vadd`). -/
def vsub : Value → Value → Value
  | .int a, .int b => .int (a - b)
  | x, y => .frac (toRat x - toRat y)

/-- Python `*` (same promotion rule as `vadd`). -/
def vmul : Value → Value → Value
  | .int a, .int b => .int (a * b)
  | x, y => .frac (toRat x * toRat y)

/-- `math.floor` of an evaluation value. -/
def vfloor : Value → ℤ
  | .int z => z
  | .frac q => q.floor

/-- `math.ceil` of an evaluation value. -/
def vceil : Value → ℤ
  | .int z => z
  | .frac q => q.ceil

/-- `int(pow(left, right))` for an integer-valued exponent `e`.
* `e ≥ 0`: `pow` is exact (`int ** nat` is an int, `Fraction ** nat` a
  Fraction) and `int()` truncates toward zero.
* `e < 0`, base `0`: Python raises `ZeroDivisionError` (both `0 ** -e` and
  `Fraction(0,1) ** -e`).
* `e < 0`, int base `a ≠ 0`: Python computes a `float` power and truncates.
  For `|a| ≥ 2` the exact value lies in `[-1/2, 1/2] \ {0}`, and its nearest
  double also lies strictly between -1 and 1 with the same sign (rounding a
  value of magnitude ≤ 1/2 cannot reach magnitude 1, and underflow gives
  ±0.0), so `int()` of it is 0 — the truncation of the exact rational; for
  `a = ±1` the float power is exactly ±1.0.  Hence the result equals the
  truncation of the exact rational `a ^ e` in every case.
* `e < 0`, Fraction base: `Fraction.__pow__` is exact; `int()` truncates. -/
def powWithIntExp : Value → ℤ → Except Err Value
  | .int a, e =>
    if 0 ≤ e then .ok (.int (a ^ e.toNat))
    else if a = 0 then .error .zeroDivisionError
    else .ok (.int (ratTrunc ((a : ℚ) ^ e)))
  | .frac q, e =>
    if 0 ≤ e then .ok (.int (ratTrunc (q ^ e.toNat)))
    else if q = 0 then .error .zeroDivisionError
    else .ok (.int (ratTrunc (q ^ e)))

/-- `int(pow(left, right))`.  An exponent that is a `Fraction` with
denominator 1 behaves exactly like the corresponding int exponent
(`Fraction.__pow__`/`__rpow__` special-case integral rationals).  A
non-integral `Fraction` exponent makes Python compute an approximate float
power; that value is outside this exact embedding (`Err.approxPow`) and is
unreachable from parser-produced ASTs, whose `^`-exponents are integer
literals. -/
def vpow (l r : Value) : Except Err Value :=
  match r with
  | .int e => powWithIntExp l e
  | .frac q => if q.den = 1 then powWithIntExp l q.num else .error .approxPow

/-! ## formula.py helpers -/

/-- `_to_int` (formula.py; `parser.py` nests an identical closure in
`_eval_node`, transcribed as `toIntP`): a Fraction must have denominator 1;
the `float` branch is unreachable for integer `n`. -/
def _to_int : Value → Except Err ℤ
  | .frac q => if q.den ≠ 1 then .error .nonIntegerArgument else .ok q.num
  | .int z => .ok z

/-- The straight-line tail of the generalized binomial algorithm (steps after
the sign/remap `if n_work < 0` block): zero cases, symmetry remap, and
`sign * math.comb(n_work, k_work)`.  When it is reached, `0 ≤ k ≤ n`, where
`math.comb` returns the ordinary binomial coefficient; its
`except (OverflowError, ValueError): return 0` guard fires only when
`min(k, n-k)` exceeds the platform word size (a resource bound, not a value
bound), so the ideal value is `Nat.choose`. -/
def binomialTail (sign n_work k_work : ℤ) : ℤ :=
  if k_work < 0 ∨ n_work < k_work then 0
  else
    let k_work := if n_work < 2 * k_work then n_work - k_work else k_work
    sign * (Nat.choose n_work.toNat k_work.toNat)

/-- `_binomial` (formula.py): the generalized binomial coefficient.  The
leading `if n_arg == math.inf or k_arg == math.inf` test is always false for
Python ints and is dropped. -/
def _binomial (n_arg k_arg : ℤ) : ℤ :=
  if n_arg < 0 then
    if 0 ≤ k_arg then
      binomialTail (if k_arg % 2 ≠ 0 then -1 else 1) (k_arg - (n_arg + 1)) k_arg
    else if k_arg ≤ n_arg then
      binomialTail (if (n_arg - k_arg) % 2 ≠ 0 then -1 else 1) (-(k_arg + 1)) (n_arg - k_arg)
    else 0
  else binomialTail 1 n_arg k_arg

/-- The `while y:` digit-sum loop of `_sumdigits` (formula.py), fuel-guarded:
fuel `y` suffices because `y // base < y` when `y ≥ 1` and `base ≥ 2`. -/
def digitSumAux : ℕ → ℕ → ℕ → ℕ
  | 0, _, _ => 0
  | fuel + 1, base, y => if y = 0 then 0 else y % base + digitSumAux fuel base (y / base)

/-- `_sumdigits` (formula.py): digit sum of `|x|` in `base`; `base` must be
≥ 2. -/
def _sumdigits (x : ℤ) (base : ℤ) : Except Err ℤ :=
  if base < 2 then .error .invalidBase
  else
    let y := x.natAbs
    if y = 0 then .ok 0
    else .ok (digitSumAux y base.toNat y)

/-! ## parser.py's evaluator

`parser.py._eval_node` contains its own textually identical copies of the
`_to_int` closure, the generalized binomial block and the `sumdigits` loop;
they are transcribed as separate definitions with a `P` suffix so that the
two files' evaluators remain independent transcriptions. -/

/-- The `_to_int` closure nested inside `parser.py._eval_node`. -/
def toIntP : Value → Except Err ℤ
  | .frac q => if q.den ≠ 1 then .error .nonIntegerArgument else .ok q.num
  | .int z => .ok z

/-- The straight-line tail of the binomial block inlined in
`parser.py._eval_node` (same text as in `_binomial`). -/
def binomialTailP (sign n_work k_work : ℤ) : ℤ :=
  if k_work < 0 ∨ n_work < k_work then 0
  else
    let k_work := if n_work < 2 * k_work then n_work - k_work else k_work
    sign * (Nat.choose n_work.toNat k_work.toNat)

/-- The generalized binomial block inlined in `parser.py._eval_node` (same
text as `_binomial`). -/
def binomialP (n_arg k_arg : ℤ) : ℤ :=
  if n_arg < 0 then
    if 0 ≤ k_arg then
      binomialTailP (if k_arg % 2 ≠ 0 then -1 else 1) (k_arg - (n_arg + 1)) k_arg
    else if k_arg ≤ n_arg then
      binomialTailP (if (n_arg - k_arg) % 2 ≠ 0 then -1 else 1) (-(k_arg + 1)) (n_arg - k_arg)
    else 0
  else binomialTailP 1 n_arg k_arg

/-- The `while y:` digit-sum loop inlined in `parser.py._eval_node`'s
`sumdigits` branch (same text as `digitSumAux`). -/
def sumdigitsLoopP : ℕ → ℕ → ℕ → ℕ
  | 0, _, _ => 0
  | fuel + 1, base, y => if y = 0 then 0 else y % base + sumdigitsLoopP fuel base (y / base)

/-- The `sumdigits` branch of `parser.py._eval_node` after its arguments have
been reduced to ints: base check, zero shortcut, digit loop. -/
def sumdigitsEvalP (x : ℤ) (base : ℤ) : Except Err Value :=
  if base < 2 then .error .invalidBase
  else
    let y := x.natAbs
    if y = 0 then .ok (.int 0)
    else .ok (.int (sumdigitsLoopP y base.toNat y))

mutual

/-- `parser.py._eval_node`: evaluate an AST at index `n`. -/
def _eval_node : Node → ℤ → Except Err Value
  | .NumNode v, _ => .ok (.int v)
  | .VarNode, n => .ok (.int n)
  | .UnaryNode op x, n => do
    let val ← _eval_node x n
    .ok (if op = "+" then val else vneg val)
  | .FuncNode name args, n => do
    let arg_vals ← evalArgsP args n
    if name = "floor" then
      match arg_vals with
      | [x] => .ok (.int (vfloor x))
      | _ => .error (.arity "floor")
    else if name = "ceil" then
      match arg_vals with
      | [x] => .ok (.int (vceil x))
      | _ => .error (.arity "ceil")
    else if name = "binomial" then
      match arg_vals with
      | [a, b] => do
        let n_arg ← toIntP a
        let k_arg ← toIntP b
        .ok (.int (binomialP n_arg k_arg))
      | _ => .error (.arity "binomial")
    else if name = "sqrtint" then
      match arg_vals with
      | [a] => do
        let x ← toIntP a
        -- `math.isqrt` raises ValueError on a negative argument
        if x < 0 then .error .negativeSqrt else .ok (.int (Nat.sqrt x.toNat))
      | _ => .error (.arity "sqrtint")
    else if name = "gcd" then
      match arg_vals with
      | [a, b] => do
        let x ← toIntP a
        let y ← toIntP b
        -- `math.gcd` returns the non-negative gcd of its arguments
        .ok (.int (Int.gcd x y))
      | _ => .error (.arity "gcd")
    else if name = "sumdigits" then
      match arg_vals with
      | [a] => do
        let x ← toIntP a
        sumdigitsEvalP x 10
      | [a, b] => do
        let x ← toIntP a
        let base ← toIntP b
        sumdigitsEvalP x base
      | _ => .error (.arity "sumdigits")
    else .error (.unknownFunction name)
  | .BinNode op l r, n => do
    let left ← _eval_node l n
    let right ← _eval_node r n
    if op = "+" then .ok (vadd left right)
    else if op = "-" then .ok (vsub left right)
    else if op = "*" then .ok (vmul left right)
    else if op = "/" then
      if toRat right = 0 then .error .divisionByZero
      else .ok (.frac (toRat left / toRat right))
    else if op = "^" then vpow left right
    else .error .invalidNode

/-- The argument list evaluation
`[_eval_node(arg, n) for arg in node.args]` (left to right, first failure
propagates). -/
def evalArgsP : List Node → ℤ → Except Err (List Value)
  | [], _ => .ok []
  | a :: as, n => do
    let v ← _eval_node a n
    let vs ← evalArgsP as n
    .ok (v :: vs)

end

mutual

/-- `formula.py.eval_node`: the second evaluator implementation; identical to
`parser.py._eval_node` except that the argument-count checks go through
`_check_arg_count` (same error) and the binomial/sumdigits/`_to_int` logic is
factored into the module-level helpers `_binomial`, `_sumdigits`, `_to_int`. -/
def eval_node : Node → ℤ → Except Err Value
  | .NumNode v, _ => .ok (.int v)
  | .VarNode, n => .ok (.int n)
  | .UnaryNode op x, n => do
    let val ← eval_node x n
    .ok (if op = "+" then val else vneg val)
  | .FuncNode name args, n => do
    let arg_vals ← evalArgsF args n
    if name = "floor" then
      match arg_vals with
      | [x] => .ok (.int (vfloor x))
      | _ => .error (.arity "floor")
    else if name = "ceil" then
      match arg_vals with
      | [x] => .ok (.int (vceil x))
      | _ => .error (.arity "ceil")
    else if name = "binomial" then
      match arg_vals with
      | [a, b] => do
        let n_arg ← _to_int a
        let k_arg ← _to_int b
        .ok (.int (_binomial n_arg k_arg))
      | _ => .error (.arity "binomial")
    else if name = "sqrtint" then
      match arg_vals with
      | [a] => do
        let x ← _to_int a
        if x < 0 then .error .negativeSqrt else .ok (.int (Nat.sqrt x.toNat))
      | _ => .error (.arity "sqrtint")
    else if name = "gcd" then
      match arg_vals with
      | [a, b] => do
        let x ← _to_int a
        let y ← _to_int b
        .ok (.int (Int.gcd x y))
      | _ => .error (.arity "gcd")
    else if name = "sumdigits" then
      match arg_vals with
      | [a] => do
        let x ← _to_int a
        let s ← _sumdigits x 10
        .ok (.int s)
      | [a, b] => do
        let x ← _to_int a
        let base ← _to_int b
        let s ← _sumdigits x base
        .ok (.int s)
      | _ => .error (.arity "sumdigits")
    else .error (.unknownFunction name)
  | .BinNode op l r, n => do
    let left ← eval_node l n
    let right ← eval_node r n
    if op = "+" then .ok (vadd left right)
    else if op = "-" then .ok (vsub left right)
    else if op = "*" then .ok (vmul left right)
    else if op = "/" then
      if toRat right = 0 then .error .divisionByZero
      else .ok (.frac (toRat left / toRat right))
    else if op = "^" then vpow left right
    else .error .invalidNode

/-- `[eval_node(arg, n) for arg in node.args]` in `formula.py`. -/
def evalArgsF : List Node → ℤ → Except Err (List Value)
  | [], _ => .ok []
  | a :: as, n => do
    let v ← eval_node a n
    let vs ← evalArgsF as n
    .ok (v :: vs)

end

/-- The result type of `ParsedFormula.evaluate`/`Formula.evaluate`: a Python
`int`, or the `float(result)` of a Fraction with denominator ≠ 1 (`.float q`
records the exact rational the returned double approximates; no claim
inspects beyond the tag). -/
inductive EvalResult where
  | int (z : ℤ)
  | float (q : ℚ)
deriving DecidableEq, Repr

/-- `ParsedFormula` (parser.py): immutable aggregate of id, provenance tag,
sanitized text and AST root. -/
structure ParsedFormula where
  sequence_id : String
  source : String
  expression : String
  node : Node

/-- `ParsedFormula.evaluate`: run `_eval_node`, then normalize: a Fraction
with denominator 1 becomes `int(numerator)`, any other Fraction becomes
`float(result)`.  The source's `isinstance(result, float)` snapping block is
unreachable: for integer `n`, `_eval_node` only returns ints and Fractions.
The final `return int(result)` on an int is the identity. -/
def ParsedFormula.evaluate (f : ParsedFormula) (n : ℤ) : Except Err EvalResult :=
  match _eval_node f.node n with
  | .error e => .error e
  | .ok (.frac q) => if q.den = 1 then .ok (.int q.num) else .ok (.float q)
  | .ok (.int z) => .ok (.int z)

/-- `Formula` (formula.py): same shape as `ParsedFormula`. -/
structure Formula where
  sequence_id : String
  source : String
  expression : String
  node : Node

/-- `Formula.evaluate` (formula.py): textually identical normalization,
delegating to `eval_node`. -/
def Formula.evaluate (f : Formula) (n : ℤ) : Except Err EvalResult :=
  match eval_node f.node n with
  | .error e => .error e
  | .ok (.frac q) => if q.den = 1 then .ok (.int q.num) else .ok (.float q)
  | .ok (.int z) => .ok (.int z)

/-- `FormulaParser._build_formula` = `FormulaParser.parse_expression`
(the public entry point): sanitize; on `None`, no result; parse inside
`try/except ValueError` (every failure `_tokenize`/`Parser` can raise is a
`ValueError`, which the `except` collapses to `None`); on success build the
`ParsedFormula` carrying the sanitized text and the AST. -/
def parse_expression (seq_id source expr : String) : Option ParsedFormula :=
  match _sanitize_expression expr with
  | none => none
  | some cleaned =>
    match _parse_expression cleaned with
    | .error _ => none
    | .ok node =>
      some { sequence_id := seq_id, source := source, expression := cleaned, node := node }

/-! ## Claim C1 -/

/-- C1: for every input string (and any sequence id / source tag), the public
entry point `parse_expression` either returns a formula or the no-result
value `none`; every sanitizer or tokenizer/parser failure collapses to
`none`.  (In the source, every failure the tokenizer and parser can raise is
a `ValueError`, which `_build_formula`'s `except ValueError` turns into
`None`; the embedding's error values enumerate exactly those raise sites.) -/
theorem C1_parse_never_raises :
    ∀ seq src expr : String,
      (parse_expression seq src expr = none ∧
        (_sanitize_expression expr = none ∨
          ∃ c e, _sanitize_expression expr = some c ∧ _parse_expression c = .error e)) ∨
      (∃ c node, _sanitize_expression expr = some c ∧ _parse_expression c = .ok node ∧
        parse_expression seq src expr =
          some { sequence_id := seq, source := src, expression := c, node := node }) := by
  intro seq src expr
  unfold parse_expression
  cases hs : _sanitize_expression expr with
  | none => exact .inl ⟨rfl, .inl rfl⟩
  | some c =>
    cases hp : _parse_expression c with
    | error e => exact .inl ⟨by simp [hp], .inr ⟨c, e, rfl, hp⟩⟩
    | ok node => exact .inr ⟨c, node, rfl, hp, by simp [hp]⟩

/-! ## Claim C4 -/

/-- C4 counterexample: the claim says parsing `"2*-n"` fails; in fact it
succeeds.  `term` parses `factor ( ('*'|'/') factor )*` with
`factor := signed_power`, so a unary sign IS accepted directly after `*`,
and `"2*-n"` parses as `2 * (-n)`. -/
theorem C4_counterexample :
    _parse_expression "2*-n" = .ok (.BinNode "*" (.NumNode 2) (.UnaryNode "-" .VarNode)) := rfl

/-- C4 amended: `"2*-n"` IS representable by the grammar — it parses as
`2 * (-n)`, because after `*` the parser reads a `factor = signed_power`,
which admits a leading unary sign; `"-n^2"` parses as `-(n^2)` as claimed. -/
theorem C4_amended :
    _parse_expression "2*-n" = .ok (.BinNode "*" (.NumNode 2) (.UnaryNode "-" .VarNode)) ∧
    _parse_expression "-n^2" = .ok (.UnaryNode "-" (.BinNode "^" .VarNode (.NumNode 2))) :=
  ⟨rfl, rfl⟩

/-! ## Claim C6 -/

/-- C6 counterexample: whitespace is not always harmless in `_tokenize`.
`"1 "` (trailing whitespace) fails with `Invalid token`, because
`TOKEN_REGEX` demands a token alternative after the skipped `\s*`; and
tokenizing `"1 2"` gives two INT tokens while its whitespace-free form
`"12"` gives one, so whitespace removal does not preserve the token
sequence. -/
theorem C6_counterexample :
    _tokenize "1 " = .error .invalidToken ∧
    _tokenize "1 2" = .ok [.INT 1, .INT 2, .EOF] ∧
    _tokenize "12" = .ok [.INT 12, .EOF] ∧
    _tokenize "1 2" ≠ _tokenize "12" :=
  ⟨rfl, rfl, rfl, by decide⟩

/-! ## Claim C7 -/

/-- C7 counterexample: the claim's sample values are wrong for the code.
`sumdigits(255, 16)` sums the two base-16 digits of 255 = 0xFF, i.e.
15 + 15 = 30, not 15; and `sumdigits(255)` in base 10 sums 2 + 5 + 5 = 12,
not 18. -/
theorem C7_counterexample :
    _sumdigits 255 16 = .ok 30 ∧ (30 : ℤ) ≠ 15 ∧
    _sumdigits 255 10 = .ok 12 ∧ (12 : ℤ) ≠ 18 :=
  ⟨rfl, by decide, rfl, by decide⟩

/-! ## Claim C8 -/

/-- C8 counterexample: the claim says `gcd(a, 0) == a` for all integers; at
`a = -1` the evaluated `gcd(-1, 0)` is `math.gcd(-1, 0) = 1 ≠ -1` (the code
returns the non-negative gcd). -/
theorem C8_counterexample :
    _eval_node (.FuncNode "gcd" [.UnaryNode "-" (.NumNode 1), .NumNode 0]) 0 = .ok (.int 1) ∧
    (1 : ℤ) ≠ -1 :=
  ⟨rfl, by decide⟩

/-! ## Claim C2 -/

/-- The two transcriptions of the binomial tail are the same function. -/
theorem binomialTailP_eq : binomialTailP = binomialTail := rfl

/-- The binomial block inlined in `parser.py._eval_node` computes the same
function as `formula.py._binomial`. -/
theorem binomialP_eq : binomialP = _binomial := by
  funext n k
  unfold binomialP _binomial
  rw [binomialTailP_eq]

theorem binomialTail_self (sign k : ℤ) (hk : 0 ≤ k) :
    binomialTail sign k k = sign := by
  unfold binomialTail
  rw [if_neg (by omega : ¬(k < 0 ∨ k < k))]
  by_cases h : k < 2 * k
  · rw [if_pos h]
    simp
  · rw [if_neg h]
    have hz : k = 0 := by omega
    subst hz
    simp

theorem sign_of_parity (k : ℕ) :
    (if (k : ℤ) % 2 ≠ 0 then (-1 : ℤ) else 1) = (-1) ^ k := by
  by_cases h : (k : ℤ) % 2 = 0
  · have he : Even k := by
      have h2 := Int.even_iff.mpr h
      rwa [Int.even_coe_nat] at h2
    rw [if_neg (by simpa using h), he.neg_one_pow]
  · have ho : Odd k := by
      have h2 : ¬ Even (k : ℤ) := fun hc => h (Int.even_iff.mp hc)
      rw [Int.even_coe_nat] at h2
      exact Nat.not_even_iff_odd.mp h2
    rw [if_pos h, ho.neg_one_pow]

/-- C2: for every `k ≥ 0`, `binomial(-1, k) = (-1)^k`: the negative-`n` /
non-negative-`k` branch sets `sign = (-1)^k` and remaps `n` to
`k - (n + 1) = k`, after which the tail computes `C(k, 0) = 1` (symmetry
remap), so the result is `sign`.  The second conjunct runs the same
computation through the evaluator on the AST of `binomial(-1, k)`. -/
theorem C2_binomial_neg_one :
    ∀ k : ℕ,
      _binomial (-1) (k : ℤ) = (-1) ^ k ∧
      _eval_node (.FuncNode "binomial" [.UnaryNode "-" (.NumNode 1), .NumNode (k : ℤ)]) 0 =
        .ok (.int ((-1) ^ k)) := by
  intro k
  have h1 : _binomial (-1) (k : ℤ) = (-1) ^ k := by
    unfold _binomial
    rw [if_pos (by omega : (-1 : ℤ) < 0), if_pos (Int.natCast_nonneg k)]
    have hk : (k : ℤ) - (-1 + 1) = (k : ℤ) := by ring
    rw [hk, binomialTail_self _ _ (Int.natCast_nonneg k), sign_of_parity]
  refine ⟨h1, ?_⟩
  have h2 : _eval_node (.FuncNode "binomial" [.UnaryNode "-" (.NumNode 1), .NumNode (k : ℤ)]) 0 =
      .ok (.int (binomialP (-1) (k : ℤ))) := rfl
  rw [h2, binomialP_eq, h1]

/-! ## Claim C9 -/

/-- The `_to_int` closure in `parser.py._eval_node` is the same function as
`formula.py._to_int`. -/
theorem toIntP_eq : toIntP = _to_int := rfl

/-- The digit-sum loop inlined in `parser.py` equals `formula.py`'s. -/
theorem sumdigitsLoopP_eq : sumdigitsLoopP = digitSumAux := by
  funext f
  induction f with
  | zero => funext b y; rfl
  | succ f ih =>
    funext b y
    show (if y = 0 then 0 else y % b + sumdigitsLoopP f b (y / b)) =
      (if y = 0 then 0 else y % b + digitSumAux f b (y / b))
    rw [ih]

/-- The inlined `sumdigits` branch of `parser.py._eval_node` agrees with
routing through `formula.py._sumdigits`. -/
theorem sumdigitsEvalP_eq (x base : ℤ) :
    sumdigitsEvalP x base = (do
      let s ← _sumdigits x base
      Except.ok (Value.int s)) := by
  unfold sumdigitsEvalP _sumdigits
  by_cases h : base < 2
  · rw [if_pos h, if_pos h]; rfl
  · rw [if_neg h, if_neg h]
    by_cases hy : x.natAbs = 0
    · rw [if_pos hy, if_pos hy]; rfl
    · rw [if_neg hy, if_neg hy, sumdigitsLoopP_eq]; rfl

mutual

/-- `parser.py._eval_node` and `formula.py.eval_node` agree on every AST and
index. -/
theorem eval_node_agrees : ∀ (node : Node) (n : ℤ), _eval_node node n = eval_node node n
  | .NumNode _, _ => rfl
  | .VarNode, _ => rfl
  | .UnaryNode op x, n => by
    simp only [_eval_node, eval_node, eval_node_agrees x n]
  | .BinNode op l r, n => by
    simp only [_eval_node, eval_node, eval_node_agrees l n, eval_node_agrees r n]
  | .FuncNode name args, n => by
    simp only [_eval_node, eval_node, eval_args_agree args n, toIntP_eq, binomialP_eq,
      sumdigitsEvalP_eq]

/-- The two argument-list evaluations agree. -/
theorem eval_args_agree : ∀ (args : List Node) (n : ℤ), evalArgsP args n = evalArgsF args n
  | [], _ => rfl
  | a :: as, n => by
    simp only [evalArgsP, evalArgsF, eval_node_agrees a n, eval_args_agree as n]

end

/-- C9: the two evaluator implementations are equivalent — for every AST node
and every integer `n`, `parser.py._eval_node` and `formula.py.eval_node`
return equal results (equal values, or the same failure), and the two
`evaluate` wrappers agree on the same AST after the identical final
normalization. -/
theorem C9_evaluators_equivalent :
    (∀ (node : Node) (n : ℤ), _eval_node node n = eval_node node n) ∧
    (∀ (sid src e : String) (node : Node) (n : ℤ),
      ParsedFormula.evaluate ⟨sid, src, e, node⟩ n = Formula.evaluate ⟨sid, src, e, node⟩ n) := by
  refine ⟨eval_node_agrees, ?_⟩
  intro sid src e node n
  unfold ParsedFormula.evaluate Formula.evaluate
  rw [eval_node_agrees]

/-! ## Claim C10 -/

/-- Unfolding equation for `_eval_node` on a binary node. -/
theorem eval_node_bin (op : String) (l r : Node) (n : ℤ) :
    _eval_node (.BinNode op l r) n = (do
      let left ← _eval_node l n
      let right ← _eval_node r n
      if op = "+" then Except.ok (vadd left right)
      else if op = "-" then Except.ok (vsub left right)
      else if op = "*" then Except.ok (vmul left right)
      else if op = "/" then
        if toRat right = 0 then Except.error Err.divisionByZero
        else Except.ok (.frac (toRat left / toRat right))
      else if op = "^" then vpow left right
      else Except.error Err.invalidNode : Except Err Value) := rfl

/-- Unfolding equation for `_eval_node` on a function node (dispatch body
abbreviated through the same definitions the evaluator uses). -/
theorem eval_node_func_gcd (l r : Node) (n : ℤ) :
    _eval_node (.FuncNode "gcd" [l, r]) n = (do
      let vs ← evalArgsP [l, r] n
      match vs with
      | [a, b] => do
        let x ← toIntP a
        let y ← toIntP b
        Except.ok (Value.int (Int.gcd x y))
      | _ => Except.error (Err.arity "gcd") : Except Err Value) := rfl

/-- C10: a `^` node coerces to an integer with truncation toward zero.  When
the base is a non-integer exact rational (e.g. `(n/2)^2` at odd `n`) the
evaluator returns `int(pow(base, exponent))` — the truncated integer part —
not the exact rational power: concretely, `(n/2)^2` at `n = 3` returns 2,
the truncation of the exact value 9/4. -/
theorem C10_pow_truncates :
    (∀ (l r : Node) (n : ℤ) (q : ℚ) (e : ℤ),
      _eval_node l n = .ok (.frac q) → _eval_node r n = .ok (.int e) → 0 ≤ e →
      _eval_node (.BinNode "^" l r) n = .ok (.int (ratTrunc (q ^ e.toNat)))) ∧
    _parse_expression "(n/2)^2" =
      .ok (.BinNode "^" (.BinNode "/" .VarNode (.NumNode 2)) (.NumNode 2)) ∧
    (∀ m : ℤ, ParsedFormula.evaluate
        ⟨"A", "oeis", "(n/2)^2", .BinNode "^" (.BinNode "/" .VarNode (.NumNode 2)) (.NumNode 2)⟩ m =
        .ok (.int (ratTrunc (((m : ℚ) / 2) ^ 2)))) ∧
    ParsedFormula.evaluate
        ⟨"A", "oeis", "(n/2)^2", .BinNode "^" (.BinNode "/" .VarNode (.NumNode 2)) (.NumNode 2)⟩ 3 =
      .ok (.int 2) ∧
    ((3 : ℚ) / 2) ^ 2 = 9 / 4 ∧ ratTrunc ((9 : ℚ) / 4) = 2 ∧ (2 : ℚ) ≠ 9 / 4 := by
  have hpow : ∀ (l r : Node) (n : ℤ) (q : ℚ) (e : ℤ),
      _eval_node l n = .ok (.frac q) → _eval_node r n = .ok (.int e) → 0 ≤ e →
      _eval_node (.BinNode "^" l r) n = .ok (.int (ratTrunc (q ^ e.toNat))) := by
    intro l r n q e hl hr he
    rw [eval_node_bin, hl, hr]
    show (if 0 ≤ e then (Except.ok (Value.int (ratTrunc (q ^ e.toNat))) : Except Err Value)
          else if q = 0 then Except.error Err.zeroDivisionError
          else Except.ok (Value.int (ratTrunc (q ^ e)))) =
      Except.ok (Value.int (ratTrunc (q ^ e.toNat)))
    rw [if_pos he]
  have hdiv : ∀ m : ℤ, _eval_node (.BinNode "/" .VarNode (.NumNode 2)) m =
      .ok (.frac ((m : ℚ) / 2)) := by
    intro m
    rw [eval_node_bin]
    show (if toRat (Value.int 2) = 0 then (Except.error Err.divisionByZero : Except Err Value)
          else Except.ok (Value.frac (toRat (Value.int m) / toRat (Value.int 2)))) =
      Except.ok (Value.frac ((m : ℚ) / 2))
    rw [if_neg (by norm_num [toRat])]
    norm_num [toRat]
  have heval : ∀ m : ℤ,
      _eval_node (.BinNode "^" (.BinNode "/" .VarNode (.NumNode 2)) (.NumNode 2)) m =
        .ok (.int (ratTrunc (((m : ℚ) / 2) ^ 2))) := by
    intro m
    exact hpow _ _ m ((m : ℚ) / 2) 2 (hdiv m) rfl (by decide)
  refine ⟨hpow, rfl, ?_, ?_, ?_, ?_, ?_⟩
  · intro m
    unfold ParsedFormula.evaluate
    rw [heval m]
  · with_unfolding_all decide
  · with_unfolding_all decide
  · with_unfolding_all decide
  · with_unfolding_all decide

/-- C10 witness: the general `^`-truncation branch applied at the concrete
base `3/2` (from `3/2` as a division node) and exponent 2 at index 0. -/
theorem C10_witness :
    _eval_node (.BinNode "^" (.BinNode "/" (.NumNode 3) (.NumNode 2)) (.NumNode 2)) 0 =
      .ok (.int (ratTrunc (((3 : ℚ) / 2) ^ (2 : ℤ).toNat))) :=
  C10_pow_truncates.1 _ _ 0 ((3 : ℚ) / 2) 2 (by with_unfolding_all decide) rfl (by decide)

/-! ## Claim C3 -/

/-- C3: division is exact rational arithmetic.  A `/` node yields the exact
rational `left/right` (failing only when right is exactly zero); the final
normalization returns an integer whenever the denominator is 1; and the
parsed formula `(n*(n+1))/2` evaluates, for every integer `n`, to an integer
equal to the triangular number `n(n+1)/2`. -/
theorem C3_division_exact :
    (∀ (l r : Node) (n : ℤ) (lv rv : Value),
      _eval_node l n = .ok lv → _eval_node r n = .ok rv → toRat rv ≠ 0 →
      _eval_node (.BinNode "/" l r) n = .ok (.frac (toRat lv / toRat rv))) ∧
    (∀ (f : ParsedFormula) (n : ℤ) (q : ℚ),
      _eval_node f.node n = .ok (.frac q) → q.den = 1 →
      f.evaluate n = .ok (.int q.num)) ∧
    _parse_expression "(n*(n+1))/2" =
      .ok (.BinNode "/" (.BinNode "*" .VarNode (.BinNode "+" .VarNode (.NumNode 1))) (.NumNode 2)) ∧
    (∀ n : ℤ, ∃ z : ℤ,
      ParsedFormula.evaluate ⟨"A000217", "oeis", "(n*(n+1))/2",
        .BinNode "/" (.BinNode "*" .VarNode (.BinNode "+" .VarNode (.NumNode 1))) (.NumNode 2)⟩ n =
        .ok (.int z) ∧ (z : ℚ) = (n : ℚ) * ((n : ℚ) + 1) / 2) := by
  have hdivgen : ∀ (l r : Node) (n : ℤ) (lv rv : Value),
      _eval_node l n = .ok lv → _eval_node r n = .ok rv → toRat rv ≠ 0 →
      _eval_node (.BinNode "/" l r) n = .ok (.frac (toRat lv / toRat rv)) := by
    intro l r n lv rv hl hr h0
    rw [eval_node_bin, hl, hr]
    show (if toRat rv = 0 then (Except.error Err.divisionByZero : Except Err Value)
          else Except.ok (Value.frac (toRat lv / toRat rv))) =
      Except.ok (Value.frac (toRat lv / toRat rv))
    rw [if_neg h0]
  have hnorm : ∀ (f : ParsedFormula) (n : ℤ) (q : ℚ),
      _eval_node f.node n = .ok (.frac q) → q.den = 1 →
      f.evaluate n = .ok (.int q.num) := by
    intro f n q h hden
    unfold ParsedFormula.evaluate
    rw [h]
    show (if q.den = 1 then (Except.ok (EvalResult.int q.num) : Except Err EvalResult)
          else Except.ok (EvalResult.float q)) = Except.ok (EvalResult.int q.num)
    rw [if_pos hden]
  refine ⟨hdivgen, hnorm, rfl, ?_⟩
  intro n
  have hinner : _eval_node (.BinNode "*" .VarNode (.BinNode "+" .VarNode (.NumNode 1))) n =
      .ok (.int (n * (n + 1))) := rfl
  have h2 : toRat (Value.int 2) ≠ 0 := by norm_num [toRat]
  have hdiv := hdivgen _ (.NumNode 2) n (.int (n * (n + 1))) (.int 2) hinner rfl h2
  -- the exact quotient is the integer n*(n+1)/2
  have hdvd : (2 : ℤ) ∣ n * (n + 1) := by
    obtain ⟨k, hk⟩ := Int.even_mul_succ_self n
    exact ⟨k, by omega⟩
  set t : ℤ := n * (n + 1) / 2 with ht
  have hmul : t * 2 = n * (n + 1) := Int.ediv_mul_cancel hdvd
  have hq : toRat (Value.int (n * (n + 1))) / toRat (Value.int 2) = ((t : ℤ) : ℚ) := by
    show ((n * (n + 1) : ℤ) : ℚ) / ((2 : ℤ) : ℚ) = ((t : ℤ) : ℚ)
    rw [div_eq_iff (by norm_num : ((2 : ℤ) : ℚ) ≠ 0)]
    push_cast
    exact_mod_cast (congrArg (fun z : ℤ => (z : ℚ)) hmul).symm
  rw [hq] at hdiv
  refine ⟨t, ?_, ?_⟩
  · have := hnorm ⟨"A000217", "oeis", "(n*(n+1))/2",
      .BinNode "/" (.BinNode "*" .VarNode (.BinNode "+" .VarNode (.NumNode 1))) (.NumNode 2)⟩ n
      ((t : ℤ) : ℚ) hdiv (Rat.den_intCast t)
    rwa [Rat.num_intCast] at this
  · have : ((t : ℤ) : ℚ) * 2 = ((n : ℚ) * ((n : ℚ) + 1)) := by
      exact_mod_cast congrArg (fun z : ℤ => (z : ℚ)) hmul
    rw [eq_div_iff (by norm_num : (2 : ℚ) ≠ 0)]
    exact this

/-- C3 witness: the division semantics and the denominator-1 normalization
applied at the concrete quotient `12 / 3`. -/
theorem C3_witness :
    _eval_node (.BinNode "/" (.NumNode 12) (.NumNode 3)) 0 =
      .ok (.frac (toRat (.int 12) / toRat (.int 3))) ∧
    ParsedFormula.evaluate ⟨"w", "w", "w", .BinNode "/" (.NumNode 12) (.NumNode 3)⟩ 0 =
      .ok (.int ((toRat (.int 12) / toRat (.int 3)).num)) ∧
    (toRat (.int 12) / toRat (.int 3)).num = 4 :=
  have h1 := C3_division_exact.1 (.NumNode 12) (.NumNode 3) 0 (.int 12) (.int 3) rfl rfl
    (by with_unfolding_all decide)
  ⟨h1, C3_division_exact.2.1 ⟨"w", "w", "w", .BinNode "/" (.NumNode 12) (.NumNode 3)⟩ 0 _ h1
    (by with_unfolding_all decide), by with_unfolding_all decide⟩

/-- Reduction of a bind whose first component already succeeded. -/
theorem bind_ok {ε α β : Type} (x : α) (f : α → Except ε β) :
    (do let v ← (Except.ok x : Except ε α); f v) = f x := rfl

/-- C8 amended: the evaluated `gcd` is `math.gcd`, the non-negative gcd:
`gcd(a,0) = |a|` (not `a`: at `a = -1` the code returns 1), `gcd(0,b) = |b|`,
`gcd` is symmetric, and the result is the greatest common divisor in the
divisibility order and is non-negative. -/
theorem C8_amended :
    (∀ (l r : Node) (n a b : ℤ),
      _eval_node l n = .ok (.int a) → _eval_node r n = .ok (.int b) →
      _eval_node (.FuncNode "gcd" [l, r]) n = .ok (.int (Int.gcd a b))) ∧
    (∀ a : ℤ, (Int.gcd a 0 : ℤ) = |a|) ∧
    (∀ b : ℤ, (Int.gcd 0 b : ℤ) = |b|) ∧
    (∀ a b : ℤ, Int.gcd a b = Int.gcd b a) ∧
    (∀ a b : ℤ, 0 ≤ (Int.gcd a b : ℤ) ∧ (Int.gcd a b : ℤ) ∣ a ∧ (Int.gcd a b : ℤ) ∣ b ∧
      ∀ d : ℤ, d ∣ a → d ∣ b → d ∣ (Int.gcd a b : ℤ)) := by
  refine ⟨?_, ?_, ?_, ?_, ?_⟩
  · intro l r n a b hl hr
    rw [eval_node_func_gcd]
    simp only [evalArgsP, hl, hr, bind_ok, toIntP]
  · intro a
    rw [Int.gcd_zero_right, Int.abs_eq_natAbs]
  · intro b
    rw [Int.gcd_zero_left, Int.abs_eq_natAbs]
  · intro a b
    exact Int.gcd_comm a b
  · intro a b
    exact ⟨Int.natCast_nonneg _, Int.gcd_dvd_left, Int.gcd_dvd_right,
      fun d hda hdb => Int.dvd_gcd hda hdb⟩

/-- C8 witness: the evaluator branch at `gcd(6, 4)`, the value 2, and the
greatest-divisor property discharged at `d = 2`. -/
theorem C8_witness :
    _eval_node (.FuncNode "gcd" [.NumNode 6, .NumNode 4]) 0 = .ok (.int (Int.gcd 6 4)) ∧
    (Int.gcd 6 4 : ℤ) = 2 ∧ (2 : ℤ) ∣ (Int.gcd 6 4 : ℤ) :=
  ⟨C8_amended.1 (.NumNode 6) (.NumNode 4) 0 6 4 rfl rfl, by decide,
    (C8_amended.2.2.2.2 6 4).2.2.2 2 (by decide) (by decide)⟩

/-! ## Claim C7 (amended) -/

/-- The digit-sum loop computes the sum of the base-`b` digits, for `b ≥ 2`
and any fuel at least `y` (the loop's `y` strictly decreases). -/
theorem digitSumAux_digits : ∀ (fuel b y : ℕ), 2 ≤ b → y ≤ fuel →
    digitSumAux fuel b y = (Nat.digits b y).sum := by
  intro fuel
  induction fuel with
  | zero =>
    intro b y hb hy
    have h0 : y = 0 := by omega
    subst h0
    simp [digitSumAux]
  | succ f ih =>
    intro b y hb hy
    by_cases h0 : y = 0
    · subst h0
      simp [digitSumAux]
    · show (if y = 0 then 0 else y % b + digitSumAux f b (y / b)) = (Nat.digits b y).sum
      rw [if_neg h0]
      have hdivle : y / b ≤ f := by
        have := Nat.div_lt_self (Nat.pos_of_ne_zero h0) (by omega : 1 < b)
        omega
      rw [ih b (y / b) hb hdivle,
        Nat.digits_def' (by omega : 1 < b) (Nat.pos_of_ne_zero h0)]
      simp

/-- C7 amended: the spec's general description of `sumdigits` holds — sum of
the base-`b` digits of `|x|`, base defaulting to 10 via the evaluator,
`InvalidBase` for base < 2, and `sumdigits(0) = 0` — but the two other
sample values are `sumdigits(255, 16) = 30` (15 + 15, not 15) and
`sumdigits(255) = 12` (2 + 5 + 5, not 18). -/
theorem C7_amended :
    _sumdigits 0 10 = .ok 0 ∧
    _sumdigits 255 16 = .ok 30 ∧
    _sumdigits 255 10 = .ok 12 ∧
    _eval_node (.FuncNode "sumdigits" [.NumNode 255]) 0 = .ok (.int 12) ∧
    (∀ x base : ℤ, 2 ≤ base →
      _sumdigits x base = .ok ((Nat.digits base.toNat x.natAbs).sum : ℤ)) ∧
    (∀ x base : ℤ, base < 2 → _sumdigits x base = .error .invalidBase) := by
  refine ⟨rfl, rfl, rfl, rfl, ?_, ?_⟩
  · intro x base hb
    show (if base < 2 then (Except.error Err.invalidBase : Except Err ℤ)
          else if x.natAbs = 0 then Except.ok 0
          else Except.ok (digitSumAux x.natAbs base.toNat x.natAbs)) =
      Except.ok ((Nat.digits base.toNat x.natAbs).sum : ℤ)
    rw [if_neg (by omega : ¬ base < 2)]
    by_cases h0 : x.natAbs = 0
    · rw [if_pos h0, h0]
      simp
    · rw [if_neg h0,
        digitSumAux_digits x.natAbs base.toNat x.natAbs (by omega) le_rfl]
  · intro x base hb
    show (if base < 2 then (Except.error Err.invalidBase : Except Err ℤ)
          else if x.natAbs = 0 then Except.ok 0
          else Except.ok (digitSumAux x.natAbs base.toNat x.natAbs)) =
      Except.error Err.invalidBase
    rw [if_pos hb]

/-- C7 witness: the general digit-sum formula at `x = -255`, base 10 (the
absolute value is used), and the `InvalidBase` failure at base 1. -/
theorem C7_witness :
    _sumdigits (-255) 10 = .ok ((Nat.digits 10 255).sum : ℤ) ∧
    _sumdigits 255 1 = .error .invalidBase :=
  ⟨C7_amended.2.2.2.2.1 (-255) 10 (by decide),
   C7_amended.2.2.2.2.2 255 1 (by decide)⟩

/-! ## Claim C6 (amended) -/

/-- Whitespace preceding further input is skipped silently: one leading
whitespace character before a non-empty remainder does not change the scan. -/
theorem tokA_skip_space (f : ℕ) (c : Char) (cs : List Char)
    (hc : isPySpace c = true) (hcs : cs ≠ []) : tokA f (c :: cs) = tokA f cs := by
  obtain ⟨d, ds, rfl⟩ : ∃ d ds, cs = d :: ds := by
    cases cs with
    | nil => exact absurd rfl hcs
    | cons d ds => exact ⟨d, ds, rfl⟩
  cases f with
  | zero => rfl
  | succ f =>
    rw [tokA_succ_cons, tokA_succ_cons,
      show (c :: d :: ds).dropWhile isPySpace = (d :: ds).dropWhile isPySpace from
        List.dropWhile_cons_of_pos hc]

/-- A whitespace run before a non-empty remainder is skipped, stated with the
fuel each `_tokenize` call would pass. -/
theorem tokA_ws_prefix : ∀ (ws rs : List Char), (∀ c ∈ ws, isPySpace c = true) → rs ≠ [] →
    tokA (ws.length + rs.length + 1) (ws ++ rs) = tokA (rs.length + 1) rs := by
  intro ws
  induction ws with
  | nil => intro rs _ _; simp
  | cons c ws ih =>
    intro rs h hr
    have hws : ws ++ rs ≠ [] := by
      intro hx
      rw [List.append_eq_nil] at hx
      exact hr hx.2
    have h1 : tokA ((c :: ws).length + rs.length + 1) (c :: (ws ++ rs)) =
        tokA ((c :: ws).length + rs.length + 1) (ws ++ rs) :=
      tokA_skip_space _ c _ (h c (by simp)) hws
    have h2 : tokA ((c :: ws).length + rs.length + 1) (ws ++ rs) =
        tokA (ws.length + rs.length + 1) (ws ++ rs) := by
      apply tokA_fuel_irrelevant
      · simp
        omega
      · simp
    have h3 := ih rs (fun x hx => h x (by simp [hx])) hr
    calc tokA ((c :: ws).length + rs.length + 1) ((c :: ws) ++ rs)
        = tokA ((c :: ws).length + rs.length + 1) (ws ++ rs) := h1
      _ = tokA (ws.length + rs.length + 1) (ws ++ rs) := h2
      _ = tokA (rs.length + 1) rs := h3

/-- Prepending whitespace to a non-empty input does not change `_tokenize`. -/
theorem _tokenize_ws_prefix (pre rest : String)
    (h : ∀ c ∈ pre.toList, isPySpace c = true) (hr : rest.toList ≠ []) :
    _tokenize (pre ++ rest) = _tokenize rest := by
  unfold _tokenize
  rw [show (pre ++ rest).toList = pre.toList ++ rest.toList by simp,
    List.length_append, tokA_ws_prefix pre.toList rest.toList h hr]

/-- A non-empty all-whitespace input fails with `Invalid token`: `\s*`
consumes everything and no token alternative can match. -/
theorem _tokenize_all_space (s : String) (hne : s.toList ≠ [])
    (h : ∀ c ∈ s.toList, isPySpace c = true) :
    _tokenize s = .error .invalidToken := by
  unfold _tokenize
  obtain ⟨c, cs, hs⟩ : ∃ c cs, s.toList = c :: cs := by
    cases hx : s.toList with
    | nil => exact absurd hx hne
    | cons c cs => exact ⟨c, cs, rfl⟩
  rw [hs, tokA_succ_cons,
    show (c :: cs).dropWhile isPySpace = [] from
      List.dropWhile_eq_nil_iff.mpr (fun x hx => h x (hs ▸ hx))]

/-- C6 amended: in the tokenizer's left-to-right scan, whitespace *preceding
a token* (more precisely: preceding any further input) is skipped silently
and does not affect the result; but a trailing whitespace run (no further
input) fails with `Invalid token`, and whitespace removal does not preserve
the token sequence in general because it can merge adjacent digit or letter
runs (`"1 2"` vs `"12"` in the counterexample). -/
theorem C6_amended :
    (∀ (f : ℕ) (c : Char) (cs : List Char), isPySpace c = true → cs ≠ [] →
      tokA f (c :: cs) = tokA f cs) ∧
    (∀ pre rest : String, (∀ c ∈ pre.toList, isPySpace c = true) → rest.toList ≠ [] →
      _tokenize (pre ++ rest) = _tokenize rest) ∧
    (∀ s : String, s.toList ≠ [] → (∀ c ∈ s.toList, isPySpace c = true) →
      _tokenize s = .error .invalidToken) :=
  ⟨tokA_skip_space, _tokenize_ws_prefix, _tokenize_all_space⟩

/-- C6 witness: a space before `"1"` is skipped; `" 1+2"` tokenizes like
`"1+2"`; `"  "` fails with `Invalid token`. -/
theorem C6_witness :
    tokA 3 (' ' :: ['1']) = tokA 3 ['1'] ∧
    _tokenize (" " ++ "1+2") = _tokenize "1+2" ∧
    _tokenize "  " = .error .invalidToken :=
  ⟨C6_amended.1 3 ' ' ['1'] (by decide) (by decide),
   C6_amended.2.1 " " "1+2" (by decide) (by decide),
   C6_amended.2.2 "  " (by decide) (by decide)⟩

/-! ## Claim C5 -/

/-- Reduction of a bind whose first component failed. -/
theorem bind_error {ε α β : Type} (e : ε) (f : α → Except ε β) :
    (do let v ← (Except.error e : Except ε α); f v) = .error e := rfl

mutual

/-- The exponent-literal invariant: in this AST, the right operand of every
`^` binary node is a `NumNode`. -/
def ExpLit : Node → Bool
  | .NumNode _ => true
  | .VarNode => true
  | .UnaryNode _ x => ExpLit x
  | .BinNode op l r =>
    ExpLit l && ExpLit r &&
      (if op = "^" then (match r with | .NumNode _ => true | _ => false) else true)
  | .FuncNode _ args => argsExpLit args

/-- `ExpLit` over an argument list. -/
def argsExpLit : List Node → Bool
  | [] => true
  | a :: as => ExpLit a && argsExpLit as

end

theorem argsExpLit_append (xs : List Node) (a : Node) :
    argsExpLit (xs ++ [a]) = (argsExpLit xs && ExpLit a) := by
  induction xs with
  | nil => simp [argsExpLit]
  | cons x xs ih => simp [argsExpLit, ih, Bool.and_assoc]

/-- Every node any parser production returns satisfies the exponent-literal
invariant (`^` only ever receives the `NumNode` that `Parser.power` builds
from the INT token it just ate). -/
theorem parser_ExpLit : ∀ fuel : ℕ,
    (∀ ts node rest, pExpr fuel ts = .ok (node, rest) → ExpLit node = true) ∧
    (∀ curr ts node rest, ExpLit curr = true →
      pExprLoop fuel curr ts = .ok (node, rest) → ExpLit node = true) ∧
    (∀ ts node rest, pTerm fuel ts = .ok (node, rest) → ExpLit node = true) ∧
    (∀ curr ts node rest, ExpLit curr = true →
      pTermLoop fuel curr ts = .ok (node, rest) → ExpLit node = true) ∧
    (∀ ts node rest, pFactor fuel ts = .ok (node, rest) → ExpLit node = true) ∧
    (∀ ts node rest, pSignedPower fuel ts = .ok (node, rest) → ExpLit node = true) ∧
    (∀ ts node rest, pPower fuel ts = .ok (node, rest) → ExpLit node = true) ∧
    (∀ ts node rest, pPrimary fuel ts = .ok (node, rest) → ExpLit node = true) ∧
    (∀ acc ts nodes rest, argsExpLit acc = true →
      pArgsLoop fuel acc ts = .ok (nodes, rest) → argsExpLit nodes = true) := by
  intro fuel
  induction fuel with
  | zero =>
    refine ⟨?_, ?_, ?_, ?_, ?_, ?_, ?_, ?_, ?_⟩
    · intro ts node rest h; exact absurd h (by simp [pExpr])
    · intro curr ts node rest _ h; exact absurd h (by simp [pExprLoop])
    · intro ts node rest h; exact absurd h (by simp [pTerm])
    · intro curr ts node rest _ h; exact absurd h (by simp [pTermLoop])
    · intro ts node rest h; exact absurd h (by simp [pFactor])
    · intro ts node rest h; exact absurd h (by simp [pSignedPower])
    · intro ts node rest h; exact absurd h (by simp [pPower])
    · intro ts node rest h; exact absurd h (by simp [pPrimary])
    · intro acc ts nodes rest _ h; exact absurd h (by simp [pArgsLoop])
  | succ fuel ih =>
    obtain ⟨ihE, ihEL, ihT, ihTL, ihF, ihSP, ihPow, ihPrim, ihArgs⟩ := ih
    have hE : ∀ ts node rest, pExpr (fuel + 1) ts = .ok (node, rest) → ExpLit node = true := by
      intro ts node rest h
      simp only [pExpr] at h
      cases hpt : pTerm fuel ts with
      | error e => rw [hpt] at h; exact absurd h (by simp [bind_error])
      | ok p =>
        obtain ⟨nd, ts₁⟩ := p
        rw [hpt, bind_ok] at h
        exact ihEL nd ts₁ node rest (ihT ts nd ts₁ hpt) h
    have hEL : ∀ curr ts node rest, ExpLit curr = true →
        pExprLoop (fuel + 1) curr ts = .ok (node, rest) → ExpLit node = true := by
      intro curr ts node rest hcurr h
      cases ts with
      | nil =>
        simp only [pExprLoop, Except.ok.injEq, Prod.mk.injEq] at h
        rw [← h.1]; exact hcurr
      | cons t ts' =>
        cases t
        case ADD =>
          simp only [pExprLoop] at h
          cases hpt : pTerm fuel ts' with
          | error e => rw [hpt] at h; exact absurd h (by simp [bind_error])
          | ok p =>
            obtain ⟨rhs, ts₁⟩ := p
            rw [hpt, bind_ok] at h
            have hbin : ExpLit (.BinNode "+" curr rhs) = true := by
              simp [ExpLit, hcurr, ihT ts' rhs ts₁ hpt]
            exact ihEL _ _ _ _ hbin h
        case SUB =>
          simp only [pExprLoop] at h
          cases hpt : pTerm fuel ts' with
          | error e => rw [hpt] at h; exact absurd h (by simp [bind_error])
          | ok p =>
            obtain ⟨rhs, ts₁⟩ := p
            rw [hpt, bind_ok] at h
            have hbin : ExpLit (.BinNode "-" curr rhs) = true := by
              simp [ExpLit, hcurr, ihT ts' rhs ts₁ hpt]
            exact ihEL _ _ _ _ hbin h
        all_goals
          (simp only [pExprLoop, Except.ok.injEq, Prod.mk.injEq] at h;
            rw [← h.1]; exact hcurr)
    have hT : ∀ ts node rest, pTerm (fuel + 1) ts = .ok (node, rest) → ExpLit node = true := by
      intro ts node rest h
      simp only [pTerm] at h
      cases hpf : pFactor fuel ts with
      | error e => rw [hpf] at h; exact absurd h (by simp [bind_error])
      | ok p =>
        obtain ⟨nd, ts₁⟩ := p
        rw [hpf, bind_ok] at h
        exact ihTL nd ts₁ node rest (ihF ts nd ts₁ hpf) h
    have hTL : ∀ curr ts node rest, ExpLit curr = true →
        pTermLoop (fuel + 1) curr ts = .ok (node, rest) → ExpLit node = true := by
      intro curr ts node rest hcurr h
      cases ts with
      | nil =>
        simp only [pTermLoop, Except.ok.injEq, Prod.mk.injEq] at h
        rw [← h.1]; exact hcurr
      | cons t ts' =>
        cases t
        case MUL =>
          simp only [pTermLoop] at h
          cases hpf : pFactor fuel ts' with
          | error e => rw [hpf] at h; exact absurd h (by simp [bind_error])
          | ok p =>
            obtain ⟨rhs, ts₁⟩ := p
            rw [hpf, bind_ok] at h
            have hbin : ExpLit (.BinNode "*" curr rhs) = true := by
              simp [ExpLit, hcurr, ihF ts' rhs ts₁ hpf]
            exact ihTL _ _ _ _ hbin h
        case DIV =>
          simp only [pTermLoop] at h
          cases hpf : pFactor fuel ts' with
          | error e => rw [hpf] at h; exact absurd h (by simp [bind_error])
          | ok p =>
            obtain ⟨rhs, ts₁⟩ := p
            rw [hpf, bind_ok] at h
            have hbin : ExpLit (.BinNode "/" curr rhs) = true := by
              simp [ExpLit, hcurr, ihF ts' rhs ts₁ hpf]
            exact ihTL _ _ _ _ hbin h
        all_goals
          (simp only [pTermLoop, Except.ok.injEq, Prod.mk.injEq] at h;
            rw [← h.1]; exact hcurr)
    have hF : ∀ ts node rest, pFactor (fuel + 1) ts = .ok (node, rest) → ExpLit node = true := by
      intro ts node rest h
      simp only [pFactor] at h
      exact ihSP ts node rest h
    have hSP : ∀ ts node rest, pSignedPower (fuel + 1) ts = .ok (node, rest) →
        ExpLit node = true := by
      intro ts node rest h
      cases ts with
      | nil =>
        simp only [pSignedPower] at h
        exact ihPow [] node rest h
      | cons t ts' =>
        cases t
        case ADD =>
          simp only [pSignedPower] at h
          cases hpp : pPower fuel ts' with
          | error e => rw [hpp] at h; exact absurd h (by simp [bind_error])
          | ok p =>
            obtain ⟨nd, ts₁⟩ := p
            rw [hpp, bind_ok] at h
            simp only [Except.ok.injEq, Prod.mk.injEq] at h
            rw [← h.1]
            simpa [ExpLit] using ihPow ts' nd ts₁ hpp
        case SUB =>
          simp only [pSignedPower] at h
          cases hpp : pPower fuel ts' with
          | error e => rw [hpp] at h; exact absurd h (by simp [bind_error])
          | ok p =>
            obtain ⟨nd, ts₁⟩ := p
            rw [hpp, bind_ok] at h
            simp only [Except.ok.injEq, Prod.mk.injEq] at h
            rw [← h.1]
            simpa [ExpLit] using ihPow ts' nd ts₁ hpp
        all_goals
          (simp only [pSignedPower] at h; exact ihPow _ node rest h)
    have hPow : ∀ ts node rest, pPower (fuel + 1) ts = .ok (node, rest) →
        ExpLit node = true := by
      intro ts node rest h
      simp only [pPower] at h
      cases hpp : pPrimary fuel ts with
      | error e => rw [hpp] at h; exact absurd h (by simp [bind_error])
      | ok p =>
        obtain ⟨nd, ts₁⟩ := p
        rw [hpp, bind_ok] at h
        have hnd := ihPrim ts nd ts₁ hpp
        cases ts₁ with
        | nil =>
          simp only [Except.ok.injEq, Prod.mk.injEq] at h
          rw [← h.1]; exact hnd
        | cons t2 rest2 =>
          cases t2
          case POW =>
            cases rest2 with
            | nil => exact absurd h (by simp)
            | cons t3 rest3 =>
              cases t3
              case INT v =>
                simp only [Except.ok.injEq, Prod.mk.injEq] at h
                rw [← h.1]
                simp [ExpLit, hnd]
              all_goals (exact absurd h (by simp))
          all_goals
            (simp only [Except.ok.injEq, Prod.mk.injEq] at h;
              rw [← h.1]; exact hnd)
    have hPrim : ∀ ts node rest, pPrimary (fuel + 1) ts = .ok (node, rest) →
        ExpLit node = true := by
      intro ts node rest h
      cases ts with
      | nil => exact absurd h (by simp [pPrimary])
      | cons t ts' =>
        cases t
        case INT v =>
          simp only [pPrimary, Except.ok.injEq, Prod.mk.injEq] at h
          rw [← h.1]; rfl
        case VAR =>
          simp only [pPrimary, Except.ok.injEq, Prod.mk.injEq] at h
          rw [← h.1]; rfl
        case FUNC name =>
          simp only [pPrimary] at h
          split at h
          · cases ts' with
            | nil => exact absurd h (by simp)
            | cons t2 rest2 =>
              cases t2
              case LP =>
                cases hpe : pExpr fuel rest2 with
                | error e =>
                  simp only [hpe, bind_error] at h
                  exact absurd h (by simp)
                | ok p =>
                  obtain ⟨a, ts₁⟩ := p
                  simp only [hpe, bind_ok] at h
                  have ha : argsExpLit [a] = true := by
                    simp [argsExpLit, ihE rest2 a ts₁ hpe]
                  cases hal : pArgsLoop fuel [a] ts₁ with
                  | error e =>
                    simp only [hal, bind_error] at h
                    exact absurd h (by simp)
                  | ok q =>
                    obtain ⟨args, ts₂⟩ := q
                    simp only [hal, bind_ok] at h
                    have hargs := ihArgs [a] ts₁ args ts₂ ha hal
                    cases ts₂ with
                    | nil => exact absurd h (by simp)
                    | cons t4 rest4 =>
                      cases t4
                      case RP =>
                        simp only [Except.ok.injEq, Prod.mk.injEq] at h
                        rw [← h.1]
                        simpa [ExpLit] using hargs
                      all_goals (exact absurd h (by simp))
              all_goals (exact absurd h (by simp))
          · exact absurd h (by simp)
        case LP =>
          simp only [pPrimary] at h
          cases hpe : pExpr fuel ts' with
          | error e =>
            simp only [hpe, bind_error] at h
            exact absurd h (by simp)
          | ok p =>
            obtain ⟨nd, ts₁⟩ := p
            simp only [hpe, bind_ok] at h
            cases ts₁ with
            | nil => exact absurd h (by simp)
            | cons t2 rest2 =>
              cases t2
              case RP =>
                simp only [Except.ok.injEq, Prod.mk.injEq] at h
                rw [← h.1]
                exact ihE ts' nd (.RP :: rest2) hpe
              all_goals (exact absurd h (by simp))
        all_goals (exact absurd h (by simp [pPrimary]))
    have hArgs : ∀ acc ts nodes rest, argsExpLit acc = true →
        pArgsLoop (fuel + 1) acc ts = .ok (nodes, rest) → argsExpLit nodes = true := by
      intro acc ts nodes rest hacc h
      cases ts with
      | nil =>
        simp only [pArgsLoop, Except.ok.injEq, Prod.mk.injEq] at h
        rw [← h.1]; exact hacc
      | cons t ts' =>
        cases t
        case COMMA =>
          simp only [pArgsLoop] at h
          cases hpe : pExpr fuel ts' with
          | error e => rw [hpe] at h; exact absurd h (by simp [bind_error])
          | ok p =>
            obtain ⟨a, ts₁⟩ := p
            rw [hpe, bind_ok] at h
            have hacc' : argsExpLit (acc ++ [a]) = true := by
              rw [argsExpLit_append, hacc, ihE ts' a ts₁ hpe]
              rfl
            exact ihArgs _ _ _ _ hacc' h
        all_goals
          (simp only [pArgsLoop, Except.ok.injEq, Prod.mk.injEq] at h;
            rw [← h.1]; exact hacc)
    exact ⟨hE, hEL, hT, hTL, hF, hSP, hPow, hPrim, hArgs⟩

/-- C5: in every AST produced by a successful parse, the right operand of
every `^` binary node is a `NumNode` built directly from an integer literal
token — the grammar never allows a general sub-expression as an exponent —
and inputs like `"n^(2)"` fail to parse (the parser `eat`s an INT after `^`
and finds `(` instead). -/
theorem C5_exponent_literal :
    (∀ (s : String) (node : Node), _parse_expression s = .ok node → ExpLit node = true) ∧
    _parse_expression "n^(2)" = .error (.unexpectedToken "INT") := by
  refine ⟨?_, rfl⟩
  intro s node h
  unfold _parse_expression at h
  cases htk : _tokenize s with
  | error e => rw [htk] at h; exact absurd h (by simp [bind_error])
  | ok toks =>
    rw [htk, bind_ok] at h
    unfold parserParse at h
    cases hpe : pExpr (8 * (toks.length + 1)) toks with
    | error e => rw [hpe] at h; exact absurd h (by simp [bind_error])
    | ok p =>
      obtain ⟨nd, rest⟩ := p
      rw [hpe, bind_ok] at h
      have h2 : (match rest.head? with
          | some Token.EOF => Except.ok nd
          | _ => (Except.error Err.trailingTokens : Except Err Node)) = Except.ok node := h
      have hnd := (parser_ExpLit (8 * (toks.length + 1))).1 toks nd rest hpe
      cases hh : rest.head? with
      | none => rw [hh] at h2; exact absurd h2 (by simp)
      | some t =>
        cases t
        case EOF =>
          rw [hh] at h2
          simp only [Except.ok.injEq] at h2
          rw [← h2]; exact hnd
        all_goals (rw [hh] at h2; exact absurd h2 (by simp))

/-- C5 witness: the invariant instantiated on the successful parse of
`"n^2"`, whose AST is `VarNode ^ NumNode 2`. -/
theorem C5_witness :
    _parse_expression "n^2" = .ok (.BinNode "^" .VarNode (.NumNode 2)) ∧
    ExpLit (.BinNode "^" .VarNode (.NumNode 2)) = true :=
  ⟨rfl, C5_exponent_literal.1 "n^2" (.BinNode "^" .VarNode (.NumNode 2)) rfl⟩
